import Mathlib

/-!
# Verification of the benchmark-report comparison script (src/critcmp.py)

This file is a shallow embedding, in Lean 4, of the Python script
src/critcmp.py, together with theorems settling the specification claims
about it.

Modelling conventions:
* Python strings are modelled as lists of characters (abbreviation Str below).
* Python floats are modelled as exact rational numbers.  None of the
  properties proved here depends on binary floating-point rounding: the
  concrete inputs involved are small decimal values and the facts proved
  (which table entries exist, which branches are taken, exact ratios of the
  form x / (2x)) are insensitive to the float/rational distinction.
* Python dicts are modelled as insertion-ordered association lists: an
  insert of an existing key overwrites the value in place, an insert of a
  new key appends at the end, exactly like the insertion-order semantics of
  Python dicts.
* The character classes of the regular expression in parse_file are
  modelled over their ASCII members (plus the micro sign for the unit
  class), which covers every character that the script or the claims
  exercise.
* File contents are passed to the embedded main as (path, content) pairs;
  reading a file cannot fail in the model, which matches every claim
  considered here (none is about unreadable files).
-/

/- Batteries marks the arithmetic of Rat irreducible; the concrete facts
below are settled by decide, whose kernel evaluation is unaffected, so the
operations are restored to their normal reducibility for this file. -/
set_option allowUnsafeReducibility true
attribute [local semireducible] Rat.mul Rat.add Rat.div Rat.sub Rat.inv Rat.neg

/-- Python strings, modelled as lists of characters. -/
abbrev Str := List Char

/-- Association list with string keys: the model of a Python dict
(insertion ordered, value overwrite in place). -/
abbrev SDict (β : Type) := List (Str × β)

/-- Model of Python dict assignment d[k] = v: overwrite in place if the key
is present, append otherwise. -/
def alInsert {β : Type} : SDict β → Str → β → SDict β
  | [], k, v => [(k, v)]
  | (k', v') :: t, k, v =>
    if k' = k then (k, v) :: t else (k', v') :: alInsert t k v

/-- Model of Python dict lookup (k in d / d[k]): first matching key. -/
def alLookup {β : Type} : SDict β → Str → Option β
  | [], _ => none
  | (k', v') :: t, k => if k' = k then some v' else alLookup t k

/-- Model of Python d.get(k, dflt). -/
def alLookupD {β : Type} (d : SDict β) (k : Str) (dflt : β) : β :=
  (alLookup d k).getD dflt

/-- Model of a defaultdict(float) read-or-create access d[k]: inserts the
default 0 if the key is absent (the value read is returned by alLookupD). -/
def alTouch (d : SDict ℚ) (k : Str) : SDict ℚ :=
  match alLookup d k with
  | some _ => d
  | none => alInsert d k 0

/-- Model of defaultdict accumulation d[k] += x. -/
def alAdd (d : SDict ℚ) (k : Str) (x : ℚ) : SDict ℚ :=
  alInsert d k (alLookupD d k 0 + x)

/-- The parsed contents of one benchmark report: test name to duration. -/
abbrev Dict := SDict ℚ

/-! ## The weight table (lines 14-24 of critcmp.py) -/

/-- WEIGHTS = the module-level dict mapping test-name prefixes to weights,
in its Python insertion order. -/
def WEIGHTS : List (Str × ℕ) :=
  [("log/".data, 10000),
   ("event_stacktrace".data, 1000),
   ("github_events/".data, 100),
   ("apache_builds/".data, 100),
   ("twitter/".data, 10),
   ("citm_catalog/".data, 10),
   ("canada/".data, 1)]

/-- DEFAULT_WEIGHT = 100. -/
def DEFAULT_WEIGHT : ℕ := 100

/-- get_weight (lines 38-43): iterate over WEIGHTS in order and return the
weight of the first entry whose key is a prefix of the test name, else
DEFAULT_WEIGHT.  (Python: for over the dict, test_name.startswith, return.) -/
def get_weight (test_name : Str) : ℕ :=
  match WEIGHTS.find? (fun e => e.1.isPrefixOf test_name) with
  | some e => e.2
  | none => DEFAULT_WEIGHT

/-- Fold selecting the entry with the longest key among a list of entries
(used only by the specification-side definition below). -/
def bestByLen : List (Str × ℕ) → Option (Str × ℕ) → Option (Str × ℕ)
  | [], b => b
  | e :: t, none => bestByLen t (some e)
  | e :: t, some b => bestByLen t (some (if b.1.length < e.1.length then e else b))

/-- Specification-side definition of the weight resolution, following the
spec's words: the weight associated with the longest matching name prefix
in the weight table, defaulting when no prefix matches. -/
def longestPrefixWeight (test_name : Str) : ℕ :=
  match bestByLen (WEIGHTS.filter (fun e => e.1.isPrefixOf test_name)) none with
  | some e => e.2
  | none => DEFAULT_WEIGHT

/-! ## Allocator-name derivation (line 393 of critcmp.py) -/

/-- Model of path.rsplit(sep, 1)[-1]: everything after the last occurrence
of the separator (the whole string when the separator does not occur).
CPython rsplit scans from the right, hence the reverse/takeWhile form. -/
def rsplitLast (s : Str) (sep : Char) : Str :=
  (s.reverse.takeWhile (fun c => ¬ (c = sep))).reverse

/-- Index of the first occurrence of the pattern old in s (model of
str.find for a nonempty pattern). -/
def firstOccur (old : Str) : Str → Option ℕ
  | [] => none
  | c :: t =>
    if old.isPrefixOf (c :: t) then some 0
    else (firstOccur old t).map (fun i => i + 1)

/-- One step per occurrence of CPython str.replace: find the leftmost
occurrence, splice in the replacement, continue after it (left-to-right,
non-overlapping, no rescan of the replacement).  Fuel bounds the number of
occurrences processed; pyReplace below supplies enough fuel. -/
def replaceAux (old new : Str) : ℕ → Str → Str
  | 0, s => s
  | fuel + 1, s =>
    match firstOccur old s with
    | none => s
    | some i => s.take i ++ new ++ replaceAux old new fuel (s.drop (i + old.length))

/-- Model of Python s.replace(old, new) for a nonempty old. -/
def pyReplace (s old new : Str) : Str :=
  replaceAux old new (s.length + 1) s

/-- allocator_name (line 393):
filepath.rsplit(sep, 1)[-1].replace(txt, empty).replace(bench, empty)
where sep is the slash and txt / bench are the two extension strings. -/
def allocator_name (filepath : Str) : Str :=
  pyReplace (pyReplace (rsplitLast filepath '/') (".txt".data) []) (".bench".data) []

/-- Specification-side basename: the segment after the last slash, written
as a direct left-to-right scan. -/
def basenameSpec : Str → Str
  | [] => []
  | c :: t =>
    if c = '/' then basenameSpec t
    else if '/' ∈ t then basenameSpec t
    else c :: t

/-- Specification-side deletion of every occurrence of a pattern, scanning
left to right without rescanning spliced text. -/
def removeAllOcc (pat : Str) : Str → Str
  | [] => []
  | c :: t =>
    if pat ≠ [] ∧ pat.isPrefixOf (c :: t) then
      removeAllOcc pat (t.drop (pat.length - 1))
    else c :: removeAllOcc pat t
termination_by s => s.length
decreasing_by
· simp only [List.length_cons]
  have := List.length_drop (pat.length - 1) t
  omega
· simp only [List.length_cons]; omega

/-- Specification-side identifier derivation, following the claim's words:
take the substring after the last slash, then delete every occurrence of
the two extension substrings anywhere within it. -/
def specIdentifier (filepath : Str) : Str :=
  removeAllOcc (".bench".data) (removeAllOcc (".txt".data) (basenameSpec filepath))

/-! ## The report parser (parse_file, lines 45-65 of critcmp.py)

The regular expression
  caret (backslash-S plus) whitespace-plus "time:" whitespace-plus
  "[" [digits-dot]-plus " " [unit-chars]-plus whitespace-plus
  (group 2: [digits-dot]-plus) whitespace-plus (group 3: [unit-chars]-plus)
is compiled with MULTILINE, so candidate match positions are exactly the
line starts.  Every quantified class in the pattern is followed by an atom
whose first character is disjoint from that class, so the backtracking
search is equivalent to taking the maximal run for each quantifier in turn;
the matcher below does exactly that. -/

/-- Python regex backslash-s over ASCII: space, tab, newline, carriage
return, vertical tab, form feed. -/
def isPySpace (c : Char) : Bool :=
  c = ' ' || c = '\t' || c = '\n' || c = '\r' || c = Char.ofNat 11 || c = Char.ofNat 12

/-- The character class [digits and dot] of the pattern. -/
def isDigitDot (c : Char) : Bool :=
  c.isDigit || c = '.'

/-- The character class of unit symbols in the pattern: micro sign, n, m, s. -/
def isUnitChar (c : Char) : Bool :=
  c = 'µ' || c = 'n' || c = 'm' || c = 's'

/-- Take a maximal nonempty run of characters satisfying p; none if the run
would be empty (the semantics of a greedy plus-quantifier over a class that
is disjoint from what follows). -/
def run1 (p : Char → Bool) (l : Str) : Option (Str × Str) :=
  match l.takeWhile p with
  | [] => none
  | r => some (r, l.dropWhile p)

/-- Match a literal string at the head of the input. -/
def expectLit : Str → Str → Option Str
  | [], l => some l
  | c :: p, x :: l => if x = c then expectLit p l else none
  | _ :: _, [] => none

/-- Attempt the timing pattern at one candidate (line-start) position.
Returns (test name, group 2 = point-estimate digits, group 3 = its unit,
rest of the input after the match). -/
def matchTimeLine (l : Str) : Option (Str × Str × Str × Str) := do
  let (name, l) ← run1 (fun c => ¬ isPySpace c) l
  let (_, l) ← run1 isPySpace l
  let l ← expectLit ("time:".data) l
  let (_, l) ← run1 isPySpace l
  let l ← expectLit (['[']) l
  let (_, l) ← run1 isDigitDot l
  let l ← expectLit ([' ']) l
  let (_, l) ← run1 isUnitChar l
  let (_, l) ← run1 isPySpace l
  let (point, l) ← run1 isDigitDot l
  let (_, l) ← run1 isPySpace l
  let (unit, l) ← run1 isUnitChar l
  pure (name, point, unit, l)

/-- Scan the document for non-overlapping matches (re.finditer with
MULTILINE): at each line start, attempt the pattern; on success, continue
after the match (whose last character is a unit character, never a
newline); otherwise advance one character.  Each step consumes at least one
character, so fuel = length + 1 never runs out. -/
def scanAux : ℕ → Bool → Str → List (Str × Str × Str)
  | 0, _, _ => []
  | fuel + 1, lineStart, l =>
    match (if lineStart then matchTimeLine l else none) with
    | some (n, p, u, rest) => (n, p, u) :: scanAux fuel false rest
    | none =>
      match l with
      | [] => []
      | c :: t => scanAux fuel (c = '\n') t

/-- All matches of the timing pattern in the document, in order. -/
def pyFindIter (content : Str) : List (Str × Str × Str) :=
  scanAux (content.length + 1) true content

/-- Model of Python float(s) for strings drawn from the digits-dot class:
plain digit runs and digit runs with a single dot (at least one digit in
total) succeed; anything else (several dots, a lone dot, empty) raises
ValueError, modelled as none. -/
def pyFloat? (s : Str) : Option ℚ :=
  match s.splitOn '.' with
  | [intPart] =>
    if intPart ≠ [] ∧ intPart.all Char.isDigit then
      some ((Nat.ofDigits 10 ((intPart.map (fun c => c.toNat - 48)).reverse) : ℕ) : ℚ)
    else none
  | [intPart, fracPart] =>
    if (intPart ≠ [] ∨ fracPart ≠ []) ∧ intPart.all Char.isDigit ∧ fracPart.all Char.isDigit then
      some (((Nat.ofDigits 10 ((intPart.map (fun c => c.toNat - 48)).reverse) : ℕ) : ℚ)
            + ((Nat.ofDigits 10 ((fracPart.map (fun c => c.toNat - 48)).reverse) : ℕ) : ℚ)
              / ((10 : ℚ) ^ fracPart.length))
    else none
  | _ => none

/-- The unit-multiplier dict of parse_file (line 61), converting to
seconds. -/
def multipliers : List (Str × ℚ) :=
  [("ns".data, 1 / 1000000000),
   ("µs".data, 1 / 1000000),
   ("ms".data, 1 / 1000),
   ("s".data, 1)]

/-- multipliers.get(unit, 1): dictionary lookup with default 1. -/
def multGet (unit : Str) : ℚ :=
  match multipliers.find? (fun e => e.1 = unit) with
  | some e => e.2
  | none => 1

/-- The body of the finditer loop of parse_file: convert each match
(float() on group 2 may raise ValueError, modelled as none aborting the
whole parse) and store it, overwriting any earlier entry for the name. -/
def buildResults : List (Str × Str × Str) → Dict → Option Dict
  | [], d => some d
  | (n, p, u) :: t, d =>
    match pyFloat? p with
    | none => none
    | some v => buildResults t (alInsert d n (v * multGet u))

/-- parse_file (lines 45-65), on the contents of the file: scan for pattern
matches and build the name-to-seconds dict. -/
def parse_file (content : Str) : Option Dict :=
  buildResults (pyFindIter content) []

/-! ## Numeric and string formatting (lines 67-104 of critcmp.py)

Python round() and the .1f format both round half to even; they are
modelled here on the exact rational value. -/

/-- Right-justify in a field of the given width (str.rjust / format spec
with greater-than alignment). -/
def padLeft (s : Str) (w : ℕ) : Str :=
  List.replicate (w - s.length) ' ' ++ s

/-- Left-justify in a field of the given width. -/
def padRight (s : Str) (w : ℕ) : Str :=
  s ++ List.replicate (w - s.length) ' '

/-- Center in a field of the given width; the extra space goes to the
right, as in Python format with caret alignment. -/
def centerPad (s : Str) (w : ℕ) : Str :=
  List.replicate ((w - s.length) / 2) ' ' ++ s
    ++ List.replicate (w - s.length - (w - s.length) / 2) ' '

/-- Decimal rendering of a natural number. -/
def natStr (n : ℕ) : Str :=
  (toString n).data

/-- Floor of a rational (the numerator and denominator of ℚ are already in
lowest terms with positive denominator, so flooring divides them). -/
def qfloor (q : ℚ) : ℤ :=
  Int.fdiv q.num (q.den : ℤ)

/-- Python round-half-to-even on an exact rational, to an integer. -/
def qRoundHalfEven (q : ℚ) : ℤ :=
  let f := qfloor q
  let r := q - (f : ℚ)
  if r < 1 / 2 then f
  else if (1 : ℚ) / 2 < r then f + 1
  else if f % 2 = 0 then f else f + 1

/-- The .1f format of Python on an exact rational: one digit after the
decimal point, rounding half to even. -/
def fmt1 (q : ℚ) : Str :=
  let r := qRoundHalfEven (q * 10)
  let a := r.natAbs
  (if q < 0 then ['-'] else []) ++ natStr (a / 10) ++ ['.'] ++ natStr (a % 10)

/-- format_time_fixed_width (lines 78-81): milliseconds with one decimal
place, right-justified. -/
def format_time_fixed_width (seconds : ℚ) (width : ℕ) : Str :=
  padLeft (fmt1 (seconds * 1000)) width

/-- The Python format spec plus-4-d: always-signed decimal right-justified
in a field of width 4. -/
def plus4d (n : ℤ) : Str :=
  padLeft ((if n < 0 then ['-'] else ['+']) ++ natStr n.natAbs) 4

/-- format_diff (lines 83-94): percentage difference from baseline, with
the zero baseline masked as N/A rather than raising an error. -/
def format_diff (baseline current : ℚ) : Str :=
  if baseline = 0 then ("(  N/A )".data)
  else
    let diff_pct := (current - baseline) / baseline * 100
    let rounded_pct := qRoundHalfEven diff_pct
    if 0 < rounded_pct then ('(' :: plus4d rounded_pct) ++ ("%)".data)
    else if rounded_pct < 0 then ('(' :: plus4d rounded_pct) ++ ("%)".data)
    else ("(   0%)".data)

/-! ## print_results (lines 127-246 of critcmp.py)

The model returns the list of printed lines and the returned weighted-sums
dict.  The inner Python for-loops become the recursive helpers below, each
threading the mutable state (the row string being built, the
weighted_sums defaultdict, the test counter) exactly as the loops do. -/

/-- The inner allocator loop of the per-test row (lines 193-208): append
one cell per allocator to the row and accumulate the weighted sums. -/
def cellsAux (all_results : SDict Dict) (baseline_alloc : Str)
    (baseline_weighted : ℚ) (weight : ℕ) (test : Str) :
    List Str → Str → SDict ℚ → Str × SDict ℚ
  | [], row, sums => (row, sums)
  | alloc :: t, row, sums =>
    match alLookup (alLookupD all_results alloc []) test with
    | some raw_time =>
      let weighted_time := raw_time * (weight : ℚ)
      let sums' := alAdd sums alloc weighted_time
      let time_str := format_time_fixed_width weighted_time 8
      let diff_str := if alloc = baseline_alloc then ("( base)".data)
                      else format_diff baseline_weighted weighted_time
      cellsAux all_results baseline_alloc baseline_weighted weight test t
        (row ++ ("  ".data) ++ time_str ++ [' '] ++ diff_str) sums'
    | none =>
      cellsAux all_results baseline_alloc baseline_weighted weight test t
        (row ++ ("  ".data) ++ padLeft ("N/A".data) 8 ++ [' '] ++ padLeft [] 7) sums

/-- The per-test loop (lines 181-211): a test is skipped (continue) when
the baseline report has no entry for it; otherwise a row is printed and
the counter advances. -/
def rowsAux (allocators : List Str) (all_results : SDict Dict)
    (baseline_alloc : Str) (max_test_len : ℕ) :
    List Str → SDict ℚ → ℕ → List Str × SDict ℚ × ℕ
  | [], sums, cnt => ([], sums, cnt)
  | test :: rest, sums, cnt =>
    let weight := get_weight test
    match alLookup (alLookupD all_results baseline_alloc []) test with
    | none => rowsAux allocators all_results baseline_alloc max_test_len rest sums cnt
    | some baseline_time =>
      let baseline_weighted := baseline_time * (weight : ℚ)
      let row0 := padRight test max_test_len ++ ("  ".data) ++ padLeft (natStr weight) 6
      let rc := cellsAux all_results baseline_alloc baseline_weighted weight test
                  allocators row0 sums
      let rest' := rowsAux allocators all_results baseline_alloc max_test_len rest rc.2 (cnt + 1)
      (rc.1 :: rest'.1, rest'.2)

/-- The SUM row loop (lines 219-226); reading weighted_sums[alloc] on the
defaultdict inserts a zero entry for an allocator that accumulated
nothing. -/
def sumCellsAux (baseline_alloc : Str) (baseline_sum : ℚ) :
    List Str → Str → SDict ℚ → Str × SDict ℚ
  | [], row, sums => (row, sums)
  | alloc :: t, row, sums =>
    let alloc_sum := alLookupD sums alloc 0
    let sums' := alTouch sums alloc
    let time_str := format_time_fixed_width alloc_sum 8
    let diff_str := if alloc = baseline_alloc then ("( base)".data)
                    else format_diff baseline_sum alloc_sum
    sumCellsAux baseline_alloc baseline_sum t
      (row ++ ("  ".data) ++ time_str ++ [' '] ++ diff_str) sums'

/-- The final summary loop (lines 237-244). -/
def summaryRowsAux (baseline_alloc : Str) (baseline_sum : ℚ) :
    List Str → SDict ℚ → List Str × SDict ℚ
  | [], sums => ([], sums)
  | alloc :: t, sums =>
    let alloc_sum := alLookupD sums alloc 0
    let sums' := alTouch sums alloc
    let time_str := format_time_fixed_width alloc_sum 8
    let diff_str := if alloc = baseline_alloc then ("   baseline".data)
                    else ("    ".data) ++ format_diff baseline_sum alloc_sum
    let line := padRight alloc 15 ++ [' '] ++ padLeft time_str 12 ++ [' '] ++ diff_str
    let rest := summaryRowsAux baseline_alloc baseline_sum t sums'
    (line :: rest.1, rest.2)

/-- print_results (lines 127-246): the printed lines and the returned
weighted-sums dict. -/
def print_results (allocators : List Str) (all_results : SDict Dict)
    (sorted_tests : List Str) : List Str × SDict ℚ :=
  if allocators = [] ∨ sorted_tests = [] then (["No data to display.".data], [])
  else
    let baseline_alloc := allocators.headD []
    let max_test_len := Nat.max ((sorted_tests.map List.length).foldr Nat.max 0) 4
    let weight_width := 6
    let time_width := 8
    let diff_width := 7
    let col_width := time_width + 1 + diff_width
    let header1 := List.replicate (max_test_len + 2) ' '
      ++ List.replicate (weight_width + 2) ' '
      ++ (allocators.map (fun a => centerPad a col_width ++ ("  ".data))).flatten
    let header2 := List.replicate (max_test_len + 2) ' '
      ++ List.replicate (weight_width + 2) ' '
      ++ (allocators.map (fun _ => List.replicate col_width '-' ++ ("  ".data))).flatten
    let header3 := padRight ("test".data) max_test_len ++ ("  ".data)
      ++ padLeft ("weight".data) weight_width
      ++ (allocators.map (fun _ => ("  ".data) ++ padLeft ("time ms".data) time_width
            ++ [' '] ++ padLeft ("(diff%)".data) diff_width)).flatten
    let header4 := padRight ("----".data) max_test_len ++ ("  ".data)
      ++ padLeft (List.replicate weight_width '-') weight_width
      ++ (allocators.map (fun _ => ("  ".data) ++ List.replicate time_width '-'
            ++ [' '] ++ List.replicate diff_width '-')).flatten
    let total_width := max_test_len + 2 + weight_width + allocators.length * (2 + col_width)
    let rws := rowsAux allocators all_results baseline_alloc max_test_len sorted_tests [] 0
    let baseline_sum := alLookupD rws.2.1 baseline_alloc 0
    let sumRow0 := padRight ("SUM".data) max_test_len ++ ("  ".data) ++ padRight [] weight_width
    let sr := sumCellsAux baseline_alloc baseline_sum allocators sumRow0 rws.2.1
    let fr := summaryRowsAux baseline_alloc baseline_sum allocators sr.2
    ([[]] ++ [header1, header2, header3, header4] ++ rws.1
       ++ [List.replicate total_width '-', sr.1, List.replicate total_width '-', [],
           ("Tests compared: ".data) ++ natStr rws.2.2, [],
           padRight ("Allocator".data) 15 ++ [' '] ++ padLeft ("Weighted Sum".data) 12
             ++ (" vs Baseline".data),
           List.replicate 15 '-' ++ [' '] ++ List.replicate 12 '-' ++ [' ']
             ++ List.replicate 11 '-']
       ++ fr.1,
     fr.2)

/-! ## main (lines 373-418 of critcmp.py), without the optional graph -/

/-- The file loop of main (lines 391-395): derive the allocator name from
each file path, append it to the allocator list in argument order, and
parse the file (a float conversion error aborts the run, modelled as
none). -/
def loadAux : List (Str × Str) → List Str → SDict Dict → Option (List Str × SDict Dict)
  | [], al, ar => some (al, ar)
  | (path, content) :: t, al, ar =>
    let name := allocator_name path
    match parse_file content with
    | none => none
    | some res => loadAux t (al ++ [name]) (alInsert ar name res)

/-- The union of the test names of all loaded reports (lines 397-400); the
Python set is modelled as the deduplicated concatenation, which the total
sort key below turns into the same deterministic sequence. -/
def allTestNames (all_results : SDict Dict) : List Str :=
  ((all_results.map (fun e => e.2.map (fun x => x.1))).flatten).dedup

/-- Lexicographic comparison of strings by code point (Python str less-than). -/
def strLt : Str → Str → Bool
  | [], [] => false
  | [], _ :: _ => true
  | _ :: _, [] => false
  | a :: s, b :: t => if a = b then strLt s t else decide (a < b)

/-- The sort key of line 403, as a boolean total order: sorting by the pair
(negated weight, name) ascending. -/
def testKeyLe (a b : Str) : Bool :=
  (get_weight b < get_weight a)
    || (get_weight a = get_weight b && (strLt a b || a = b))

/-- Stable insertion into a sorted list. -/
def insertLe (le : Str → Str → Bool) (x : Str) : List Str → List Str
  | [] => [x]
  | y :: t => if le x y then x :: y :: t else y :: insertLe le x t

/-- Model of Python sorted with a total boolean key order. -/
def pysorted (le : Str → Str → Bool) (l : List Str) : List Str :=
  l.foldr (insertLe le) []

/-- main (lines 373-406) on in-memory files, without the optional graph
output: parse every file, sort the union of test names by descending
weight then name, and run print_results.  The result is the printed lines
and the weighted sums; none models a run aborted by an uncaught
exception. -/
def mainRun (files : List (Str × Str)) : Option (List Str × SDict ℚ) :=
  match loadAux files [] [] with
  | none => none
  | some (allocators, all_results) =>
    let sorted_tests := pysorted testKeyLe (allTestNames all_results)
    some (print_results allocators all_results sorted_tests)

/-- The allocator (column) order of a run: the file-loop accumulator. -/
def mainAllocs (files : List (Str × Str)) : Option (List Str) :=
  (loadAux files [] []).map (fun r => r.1)

/-- Substring test, for statements about printed lines. -/
def containsSub (s pat : Str) : Bool :=
  (firstOccur pat s).isSome

/-! ## Dictionary lemmas -/

theorem alLookup_alInsert {β : Type} (d : SDict β) (k : Str) (v : β) (k' : Str) :
    alLookup (alInsert d k v) k' = if k' = k then some v else alLookup d k' := by
  induction d with
  | nil =>
    simp only [alInsert, alLookup]
    by_cases h : k' = k
    · simp [h]
    · simp [h, Ne.symm h]
  | cons e t ih =>
    obtain ⟨k0, v0⟩ := e
    simp only [alInsert]
    by_cases h0 : k0 = k
    · subst h0
      simp only [if_pos rfl, alLookup]
      by_cases h : k' = k0
      · simp [h]
      · simp [h, Ne.symm h]
    · simp only [if_neg h0, alLookup]
      by_cases h1 : k0 = k'
      · subst h1
        rw [if_pos rfl, if_neg (fun h : k0 = k => h0 h), if_pos rfl]
      · simp [h1, ih]

/-- The converted duration of one regex match (float of group 2 times the
unit multiplier of group 3), when the float conversion succeeds. -/
def convOf (m : Str × Str × Str) : Option ℚ :=
  (pyFloat? m.2.1).map (fun v => v * multGet m.2.2)

theorem buildResults_lookup (k : Str) :
    ∀ (ms : List (Str × Str × Str)) (d0 : Dict) (acc : Option ℚ) (d : Dict),
      alLookup d0 k = acc → buildResults ms d0 = some d →
      alLookup d k =
        ms.foldl (fun a m => if m.1 = k then convOf m else a) acc := by
  intro ms
  induction ms with
  | nil =>
    intro d0 acc d h0 hb
    simp [buildResults] at hb
    subst hb
    simpa using h0
  | cons m t ih =>
    intro d0 acc d h0 hb
    obtain ⟨n, p, u⟩ := m
    cases hf : pyFloat? p with
    | none => simp [buildResults, hf] at hb
    | some v =>
      simp only [buildResults, hf] at hb
      have h0' : alLookup (alInsert d0 n (v * multGet u)) k =
          if n = k then convOf (n, p, u) else acc := by
        rw [alLookup_alInsert]
        by_cases hk : k = n
        · subst hk
          simp [convOf, hf]
        · rw [if_neg hk, if_neg (Ne.symm hk)]
          exact h0
      have hres := ih (alInsert d0 n (v * multGet u)) _ d h0' hb
      simpa using hres

theorem buildResults_mem (k : Str) :
    ∀ (ms : List (Str × Str × Str)) (d0 : Dict) (d : Dict),
      buildResults ms d0 = some d → (alLookup d k).isSome = true →
      (alLookup d0 k).isSome = true ∨ ∃ m ∈ ms, m.1 = k := by
  intro ms
  induction ms with
  | nil =>
    intro d0 d hb hs
    simp [buildResults] at hb
    subst hb
    exact Or.inl hs
  | cons m t ih =>
    intro d0 d hb hs
    obtain ⟨n, p, u⟩ := m
    cases hf : pyFloat? p with
    | none => simp [buildResults, hf] at hb
    | some v =>
      simp only [buildResults, hf] at hb
      rcases ih _ d hb hs with h | h
      · rw [alLookup_alInsert] at h
        by_cases hk : k = n
        · exact Or.inr ⟨(n, p, u), by simp, hk.symm⟩
        · rw [if_neg hk] at h
          exact Or.inl h
      · obtain ⟨m', hm', he⟩ := h
        exact Or.inr ⟨m', List.mem_cons_of_mem _ hm', he⟩

/-- The duplicate-test-name document of claim C8. -/
def dupContent : Str :=
  ("foo time: [1.0 ns 2.0 ns 3.0 ns]\nfoo time: [4.0 ns 5.0 ns 6.0 ns]").data

/-- C8 (confirmed): when the same test name appears on several lines
matching the timing pattern, the parsed report maps it to the converted
duration of the last occurrence (the foldl with overwrite below), and no
error is raised; on the concrete duplicate-foo document the stored value is
the second occurrence's 5.0 ns. -/
theorem parse_file_last_occurrence_wins :
    (∀ (content : Str) (d : Dict), parse_file content = some d →
       ∀ (k : Str), alLookup d k =
         (pyFindIter content).foldl (fun a m => if m.1 = k then convOf m else a) none)
    ∧ parse_file dupContent = some [(("foo").data, (1 : ℚ) / 200000000)] := by
  constructor
  · intro content d h k
    exact buildResults_lookup k (pyFindIter content) [] none d rfl h
  · decide

/-- Witness for C8: the theorem applied to the concrete duplicate-foo
document. -/
theorem parse_file_last_occurrence_wins_witness :
    alLookup [(("foo").data, (1 : ℚ) / 200000000)] (("foo").data) =
      (pyFindIter dupContent).foldl
        (fun a m => if m.1 = (("foo").data : Str) then convOf m else a) none :=
  parse_file_last_occurrence_wins.1 dupContent
    [(("foo").data, (1 : ℚ) / 200000000)] (by decide) (("foo").data)

/-- The document of claim C9: a line naming bar with no time-range
bracket, followed by a well-formed line for foo. -/
def ignoredLineContent : Str :=
  ("bar no-time-here\nfoo time: [1.0 ns 2.0 ns 3.0 ns]").data

/-- C9 (confirmed): every key of a parsed report comes from a line matching
the timing pattern, so non-matching lines contribute no entry and raise no
error; on the concrete document the bar line is ignored, the foo line is
kept, and the parse succeeds. -/
theorem parse_file_ignores_nonmatching_lines :
    (∀ (content : Str) (d : Dict), parse_file content = some d →
       ∀ (k : Str), (alLookup d k).isSome = true → ∃ m ∈ pyFindIter content, m.1 = k)
    ∧ parse_file ignoredLineContent = some [(("foo").data, (1 : ℚ) / 500000000)]
    ∧ alLookup [(("foo").data, (1 : ℚ) / 500000000)] (("bar").data) = none := by
  refine ⟨?_, by decide, by decide⟩
  intro content d h k hs
  rcases buildResults_mem k (pyFindIter content) [] d h hs with h' | h'
  · simp [alLookup] at h'
  · exact h'

/-- Witness for C9: the theorem applied to the concrete document and the
key foo. -/
theorem parse_file_ignores_nonmatching_lines_witness :
    ∃ m ∈ pyFindIter ignoredLineContent, m.1 = ("foo").data :=
  parse_file_ignores_nonmatching_lines.1 ignoredLineContent
    [(("foo").data, (1 : ℚ) / 500000000)] (by decide) (("foo").data) (by decide)

/-! ## Claim C7: weight resolution -/

/-- On a list of weight entries whose keys are pairwise incomparable under
the prefix order, at most one key can be a prefix of a given name, so the
first match of the iteration order and the longest match coincide. -/
theorem find_matches_longest (n : Str) :
    ∀ (l : List (Str × ℕ)),
      l.Pairwise (fun a b => a.1.isPrefixOf b.1 = false ∧ b.1.isPrefixOf a.1 = false) →
      (match l.find? (fun e => e.1.isPrefixOf n) with
       | some e => e.2
       | none => DEFAULT_WEIGHT) =
      (match bestByLen (l.filter (fun e => e.1.isPrefixOf n)) none with
       | some e => e.2
       | none => DEFAULT_WEIGHT) := by
  intro l
  induction l with
  | nil => intro _; rfl
  | cons e t ih =>
    intro hp
    rcases List.pairwise_cons.mp hp with ⟨he, ht⟩
    by_cases hm : e.1.isPrefixOf n = true
    · have hfind : (e :: t).find? (fun x => x.1.isPrefixOf n) = some e := by
        simp [List.find?_cons, hm]
      have hfilter_t : t.filter (fun x => x.1.isPrefixOf n) = [] := by
        rw [List.filter_eq_nil_iff]
        intro a ha hpa
        have h1 : e.1 <+: n := List.isPrefixOf_iff_prefix.mp hm
        have h2 : a.1 <+: n := List.isPrefixOf_iff_prefix.mp (by simpa using hpa)
        rcases List.prefix_or_prefix_of_prefix h1 h2 with hc | hc
        · exact absurd (List.isPrefixOf_iff_prefix.mpr hc) (by simp [(he a ha).1])
        · exact absurd (List.isPrefixOf_iff_prefix.mpr hc) (by simp [(he a ha).2])
      have hfilter : (e :: t).filter (fun x => x.1.isPrefixOf n) = [e] := by
        simp [List.filter_cons, hm, hfilter_t]
      rw [hfind, hfilter]
      rfl
    · have hfind : (e :: t).find? (fun x => x.1.isPrefixOf n)
          = t.find? (fun x => x.1.isPrefixOf n) := by
        simp [List.find?_cons, hm]
      have hfilter : (e :: t).filter (fun x => x.1.isPrefixOf n)
          = t.filter (fun x => x.1.isPrefixOf n) := by
        simp [List.filter_cons, hm]
      rw [hfind, hfilter]
      exact ih ht

/-- C7 (confirmed): the weight used for a test name is the one of the
longest matching prefix in the configured weight table (because the
configured prefixes are pairwise incomparable, the first match returned by
the code's iteration is the longest match), with DEFAULT_WEIGHT when no
prefix matches; the name log/parse_huge resolves to 10000, not the
default weight. -/
theorem get_weight_is_longest_prefix_match :
    (∀ n : Str, get_weight n = longestPrefixWeight n)
    ∧ get_weight (("log/parse_huge").data) = 10000
    ∧ DEFAULT_WEIGHT = 100
    ∧ get_weight (("log/parse_huge").data) ≠ DEFAULT_WEIGHT := by
  refine ⟨?_, by decide, by decide, by decide⟩
  intro n
  unfold get_weight longestPrefixWeight
  exact find_matches_longest n WEIGHTS (by decide)

/-! ## Claim C10: identifier derivation from the file path -/

theorem takeWhileAppendAll (p : Char → Bool) (l2 : Str) :
    ∀ (l1 : Str), (∀ a ∈ l1, p a = true) →
      (l1 ++ l2).takeWhile p = l1 ++ l2.takeWhile p := by
  intro l1
  induction l1 with
  | nil => intro _; rfl
  | cons c t ih =>
    intro h
    have hc : p c = true := h c (by simp)
    simp only [List.cons_append, List.takeWhile_cons, hc, if_true]
    rw [ih (fun a ha => h a (by simp [ha]))]

theorem takeWhileAppendStop (p : Char → Bool) (l2 : Str) :
    ∀ (l1 : Str), (∃ a ∈ l1, p a = false) →
      (l1 ++ l2).takeWhile p = l1.takeWhile p := by
  intro l1
  induction l1 with
  | nil => rintro ⟨a, ha, _⟩; exact absurd ha (by simp)
  | cons c t ih =>
    rintro ⟨a, ha, hpa⟩
    by_cases hc : p c = true
    · have hat : a ∈ t := by
        rcases List.mem_cons.mp ha with h | h
        · subst h; rw [hc] at hpa; exact absurd hpa (by simp)
        · exact h
      simp only [List.cons_append, List.takeWhile_cons, hc, if_true]
      rw [ih ⟨a, hat, hpa⟩]
    · have hc' : p c = false := by
        cases h : p c
        · rfl
        · exact absurd h hc
      simp [List.takeWhile_cons, hc']

theorem basenameSpec_of_no_slash : ∀ (s : Str), '/' ∉ s → basenameSpec s = s := by
  intro s h
  cases s with
  | nil => rfl
  | cons c t =>
    have hc : ¬ (c = '/') := fun hc => h (by simp [hc])
    have ht : '/' ∉ t := fun hm => h (by simp [hm])
    simp [basenameSpec, hc, ht]

theorem rsplitLast_eq_basenameSpec : ∀ (s : Str), rsplitLast s '/' = basenameSpec s := by
  intro s
  induction s with
  | nil => rfl
  | cons c t ih =>
    unfold rsplitLast
    rw [List.reverse_cons]
    by_cases hs : '/' ∈ t
    · have hex : ∃ a ∈ t.reverse, (decide (¬ a = '/')) = false := by
        exact ⟨'/', by simpa using hs, by simp⟩
      rw [takeWhileAppendStop _ _ _ hex]
      have hres : rsplitLast t '/' = basenameSpec t := ih
      unfold rsplitLast at hres
      rw [hres]
      by_cases hc : c = '/'
      · simp [basenameSpec, hc]
      · simp [basenameSpec, hc, hs]
    · have hall : ∀ a ∈ t.reverse, (decide (¬ a = '/')) = true := by
        intro a ha
        simp only [decide_eq_true_eq]
        intro he
        subst he
        exact hs (by simpa using ha)
      rw [takeWhileAppendAll _ _ _ hall]
      by_cases hc : c = '/'
      · subst hc
        have hq : (decide (¬ ('/' : Char) = '/')) = false := by simp
        simp only [List.takeWhile_cons, hq, List.takeWhile_nil, Bool.false_eq_true,
          if_false, List.append_nil, List.reverse_reverse]
        simp [basenameSpec, basenameSpec_of_no_slash t hs]
      · have hq : (decide (¬ c = '/')) = true := by simp [hc]
        simp only [List.takeWhile_cons, hq, if_true, List.takeWhile_nil]
        rw [List.reverse_append]
        simp [basenameSpec, hc, hs]

theorem removeAllOcc_nil (pat : Str) : removeAllOcc pat [] = [] := by
  rw [removeAllOcc]

theorem removeAllOcc_cons (pat : Str) (c : Char) (t : Str) :
    removeAllOcc pat (c :: t) =
      if pat ≠ [] ∧ pat.isPrefixOf (c :: t) then removeAllOcc pat (t.drop (pat.length - 1))
      else c :: removeAllOcc pat t := by
  rw [removeAllOcc]

theorem firstOccur_cons (old : Str) (c : Char) (t : Str) :
    firstOccur old (c :: t) =
      if old.isPrefixOf (c :: t) then some 0
      else (firstOccur old t).map (fun i => i + 1) := rfl

theorem replaceAux_succ (old new : Str) (f : ℕ) (s : Str) :
    replaceAux old new (f + 1) s =
      match firstOccur old s with
      | none => s
      | some i => s.take i ++ new ++ replaceAux old new f (s.drop (i + old.length)) := rfl

theorem removeAllOcc_of_no_occur (pat : Str) :
    ∀ (s : Str), firstOccur pat s = none → removeAllOcc pat s = s := by
  intro s
  induction s with
  | nil => intro _; exact removeAllOcc_nil pat
  | cons c t ih =>
    intro h
    rw [firstOccur_cons] at h
    by_cases hp : pat.isPrefixOf (c :: t) = true
    · rw [if_pos hp] at h
      cases h
    · rw [if_neg hp] at h
      have ht : firstOccur pat t = none := by
        cases ho : firstOccur pat t
        · rfl
        · rw [ho] at h
          simp at h
      rw [removeAllOcc_cons, if_neg (fun hh => hp hh.2), ih ht]

theorem removeAllOcc_at_occur (pat : Str) (hp : pat ≠ []) :
    ∀ (t : Str) (j : ℕ), firstOccur pat t = some j →
      removeAllOcc pat t = t.take j ++ removeAllOcc pat (t.drop (j + pat.length)) := by
  intro t
  induction t with
  | nil => intro j h; cases h
  | cons c u ih =>
    intro j h
    have hL : 1 ≤ pat.length := by
      cases pat with
      | nil => exact absurd rfl hp
      | cons a b => simp
    rw [firstOccur_cons] at h
    by_cases hpre : pat.isPrefixOf (c :: u) = true
    · rw [if_pos hpre] at h
      cases h
      rw [removeAllOcc_cons, if_pos ⟨hp, hpre⟩]
      have hdrop : (c :: u).drop (0 + pat.length) = u.drop (pat.length - 1) := by
        cases hpl : pat.length with
        | zero => omega
        | succ m => simp [List.drop_succ_cons]
      rw [hdrop]
      simp
    · rw [if_neg hpre] at h
      cases ho : firstOccur pat u with
      | none => rw [ho] at h; cases h
      | some j' =>
        rw [ho] at h
        have hj : j = j' + 1 := by simpa using h.symm
        subst hj
        rw [removeAllOcc_cons, if_neg (fun hh => hpre hh.2), ih j' ho]
        have hdrop : (c :: u).drop (j' + 1 + pat.length) = u.drop (j' + pat.length) := by
          have harith : j' + 1 + pat.length = (j' + pat.length) + 1 := by omega
          rw [harith, List.drop_succ_cons]
        rw [hdrop, List.take_succ_cons]
        simp

theorem replaceAux_eq_removeAllOcc (pat : Str) (hp : pat ≠ []) :
    ∀ (fuel : ℕ) (s : Str), s.length < fuel →
      replaceAux pat [] fuel s = removeAllOcc pat s := by
  intro fuel
  induction fuel with
  | zero => intro s h; omega
  | succ f ih =>
    intro s hlen
    rw [replaceAux_succ]
    cases ho : firstOccur pat s with
    | none => rw [removeAllOcc_of_no_occur pat s ho]
    | some i =>
      simp only []
      have hs : s ≠ [] := by
        intro he
        subst he
        cases ho
      have hL : 1 ≤ pat.length := by
        cases pat with
        | nil => exact absurd rfl hp
        | cons a b => simp
      have hslen : 1 ≤ s.length := by
        cases s with
        | nil => exact absurd rfl hs
        | cons a b => simp
      have hd : (s.drop (i + pat.length)).length < f := by
        have := List.length_drop (i + pat.length) s
        omega
      rw [ih (s.drop (i + pat.length)) hd]
      rw [removeAllOcc_at_occur pat hp s i ho]
      simp

theorem pyReplace_eq_removeAllOcc (pat : Str) (hp : pat ≠ []) (s : Str) :
    pyReplace s pat [] = removeAllOcc pat s :=
  replaceAux_eq_removeAllOcc pat hp (s.length + 1) s (by omega)

/-- C10 (confirmed): the configuration identifier of an input path is
obtained by taking the substring after the last slash and then deleting
every occurrence of the .txt and .bench substrings anywhere within it (a
left-to-right non-overlapping deletion, not just a trailing-extension
strip); in particular foo.txt.bak yields foo.bak and a.benchmark yields
amark. -/
theorem allocator_name_deletes_all_occurrences :
    (∀ path : Str, allocator_name path = specIdentifier path)
    ∧ allocator_name (("foo.txt.bak").data) = ("foo.bak").data
    ∧ allocator_name (("a.benchmark").data) = ("amark").data := by
  refine ⟨?_, by decide, by decide⟩
  intro path
  unfold allocator_name specIdentifier
  rw [rsplitLast_eq_basenameSpec]
  rw [pyReplace_eq_removeAllOcc _ (by decide)]
  rw [pyReplace_eq_removeAllOcc _ (by decide)]

/-! ## Claims C3 and C6: unit handling of the parser -/

/-- A document whose matched timing line carries the unit m, which is not a
key of the multiplier dict. -/
def badUnitContent : Str := ("foo time: [1.0 ns 2.0 m").data

/-- Counterexample to C3 as stated: on a file whose matched line has the
unrecognized unit symbol m, parse_file succeeds and stores the entry with
the default multiplier 1 (the value 2.0 is kept as 2 seconds); no
MalformedTime failure exists in the code. -/
theorem parse_file_unknown_unit_no_error :
    parse_file badUnitContent = some [(("foo").data, 2)]
    ∧ multGet (("m").data) = 1 := by
  exact ⟨by decide, by decide⟩

/-- C3 (corrected): a matched line whose unit symbol is not a key of the
multiplier dict is stored with the default multiplier 1 (interpreting the
number as seconds); parsing does not fail and the entry is not dropped. -/
theorem parse_file_unknown_unit_defaults_to_one :
    (∀ u : Str, u ≠ ("ns").data → u ≠ ("µs").data → u ≠ ("ms").data → u ≠ ("s").data →
       multGet u = 1)
    ∧ parse_file badUnitContent = some [(("foo").data, 2 * multGet (("m").data))] := by
  constructor
  · intro u h1 h2 h3 h4
    simp [multGet, multipliers, List.find?_cons, Ne.symm h1, Ne.symm h2, Ne.symm h3, Ne.symm h4]
  · decide

/-- Witness for C3 (corrected): the default multiplier applied at the
concrete unit m. -/
theorem parse_file_unknown_unit_defaults_to_one_witness :
    multGet (("m").data) = 1 :=
  parse_file_unknown_unit_defaults_to_one.1 (("m").data)
    (by decide) (by decide) (by decide) (by decide)

/-- The two documents of scenario 1 of the spec. -/
def c6DefaultContent : Str := ("foo time: [1.0 µs 2.0 µs 3.0 µs]").data

/-- The candidate document of scenario 1 of the spec. -/
def c6CandidateContent : Str := ("foo time: [0.5 µs 1.0 µs 1.5 µs]").data

/-- Counterexample to C6 as stated: the stored duration for foo in the
baseline document is 1/500000 (seconds), not the number 2000, and the
multiplier for the microsecond unit is 1/1000000, not the 1000 of the
claimed nanosecond table. -/
theorem parse_file_not_nanoseconds :
    parse_file c6DefaultContent = some [(("foo").data, 1 / 500000)]
    ∧ ¬ ((1 : ℚ) / 500000 = 2000)
    ∧ multGet (("µs").data) = 1 / 1000000
    ∧ ¬ ((1 : ℚ) / 1000000 = 1000) := by
  exact ⟨by decide, by decide, by decide, by decide⟩

/-- C6 (corrected): the parser converts the point estimate to seconds with
the multiplier table ns to 1e-9, microseconds to 1e-6, ms to 1e-3, s to 1;
on scenario 1 the stored baseline duration is 2e-6 seconds (the same
physical quantity as 2000 ns), the candidate ratio is 1/2 and the
percentage delta is -50, which format_diff renders as ( -50%). -/
theorem parse_file_converts_to_seconds :
    parse_file c6DefaultContent = some [(("foo").data, 1 / 500000)]
    ∧ parse_file c6CandidateContent = some [(("foo").data, 1 / 1000000)]
    ∧ ((1 : ℚ) / 1000000) / ((1 : ℚ) / 500000) = 1 / 2
    ∧ (((1 : ℚ) / 1000000) - 1 / 500000) / ((1 : ℚ) / 500000) * 100 = -50
    ∧ multGet (("ns").data) = 1 / 1000000000
    ∧ multGet (("µs").data) = 1 / 1000000
    ∧ multGet (("ms").data) = 1 / 1000
    ∧ multGet (("s").data) = 1
    ∧ format_diff ((1 / 500000) * (100 : ℚ)) ((1 / 1000000) * 100) = ("( -50%)").data := by
  refine ⟨by decide, by decide, by decide, by decide, by decide, by decide, by decide,
    by decide, by decide⟩

/-! ## Claim C1: column order and baseline -/

/-- The three scenario-3 inputs, given in canonical-looking order. -/
def c1OrderedFiles : List (Str × Str) :=
  [(("default").data, []), (("unknownalloc").data, []), (("smalloc").data, [])]

/-- The same three inputs with smalloc first. -/
def c1PermutedFiles : List (Str × Str) :=
  [(("smalloc").data, []), (("default").data, []), (("unknownalloc").data, [])]

/-- Counterexample to C1 as stated: the displayed order is the argument
order, not a canonical function of the identifier multiset: permuting the
same three file arguments changes the column order, and with smalloc
first the baseline is smalloc rather than default. -/
theorem display_order_not_canonical :
    mainAllocs c1OrderedFiles
      = some [("default").data, ("unknownalloc").data, ("smalloc").data]
    ∧ mainAllocs c1PermutedFiles
      = some [("smalloc").data, ("default").data, ("unknownalloc").data]
    ∧ ((mainAllocs c1PermutedFiles).getD []).headD [] = ("smalloc").data
    ∧ ¬ (mainAllocs c1OrderedFiles = mainAllocs c1PermutedFiles)
    ∧ ¬ ((("smalloc").data : Str) = ("default").data) := by
  exact ⟨by decide, by decide, by decide, by decide, by decide⟩

theorem loadAux_fst :
    ∀ (files : List (Str × Str)) (al : List Str) (ar : SDict Dict),
      (∀ f ∈ files, (parse_file f.2).isSome = true) →
      (loadAux files al ar).map (fun r => r.1)
        = some (al ++ files.map (fun f => allocator_name f.1)) := by
  intro files
  induction files with
  | nil => intro al ar _; simp [loadAux]
  | cons f t ih =>
    intro al ar h
    obtain ⟨path, content⟩ := f
    have hs : (parse_file content).isSome = true := h (path, content) (by simp)
    cases hp : parse_file content with
    | none => rw [hp] at hs; cases hs
    | some res =>
      simp only [loadAux, hp]
      rw [ih (al ++ [allocator_name path]) _ (fun g hg => h g (by simp [hg]))]
      simp

/-- C1 (corrected): the displayed column order is exactly the file-argument
order (each path mapped to its derived identifier) and the baseline is the
first argument's identifier, so the order and baseline do depend on the
argument permutation; when the arguments are given as default,
unknownalloc, smalloc the displayed order is that same sequence with
default as baseline. -/
theorem display_order_follows_arguments :
    (∀ files : List (Str × Str), (∀ f ∈ files, (parse_file f.2).isSome = true) →
       mainAllocs files = some (files.map (fun f => allocator_name f.1)))
    ∧ mainAllocs c1OrderedFiles
        = some [("default").data, ("unknownalloc").data, ("smalloc").data]
    ∧ ((mainAllocs c1OrderedFiles).getD []).headD [] = ("default").data := by
  refine ⟨?_, by decide, by decide⟩
  intro files h
  unfold mainAllocs
  exact loadAux_fst files [] [] h

/-- Witness for C1 (corrected): the general order statement applied to the
concrete three files. -/
theorem display_order_follows_arguments_witness :
    mainAllocs c1OrderedFiles
      = some (c1OrderedFiles.map (fun f => allocator_name f.1)) :=
  display_order_follows_arguments.1 c1OrderedFiles (by decide)

/-! ## Claim C4: zero baseline durations -/

/-- Scenario-4 inputs: the baseline report has duration 0 for foo. -/
def c4Files : List (Str × Str) :=
  [(("default").data, ("foo time: [0.0 ns 0.0 ns 0.0 ns]").data),
   (("jemalloc").data, ("foo time: [1.0 ns 1.0 ns 1.0 ns]").data)]

/-- Counterexample to C4 as stated: with a zero baseline duration the run
does not fail and does not abort before output: the full 16-line table is
printed, with the zero-baseline diff cell masked as (  N/A ). -/
theorem zero_baseline_run_completes :
    (mainRun c4Files).isSome = true
    ∧ ((mainRun c4Files).getD ([], [])).1.length = 16
    ∧ ((mainRun c4Files).getD ([], [])).1.any
        (fun l => containsSub l (("(  N/A )").data)) = true := by
  exact ⟨by decide, by decide, by decide⟩

/-- C4 (corrected): a zero baseline value is masked, not surfaced:
format_diff returns the (  N/A ) marker whenever the baseline argument is
0, and a run whose baseline report has duration 0 for a test still prints
the whole table, with that marker in the zero-baseline cell. -/
theorem zero_baseline_masked_as_na :
    (∀ c : ℚ, format_diff 0 c = ("(  N/A )").data)
    ∧ (mainRun c4Files).isSome = true
    ∧ ((mainRun c4Files).getD ([], [])).1.any
        (fun l => containsSub l (("(  N/A )").data)) = true := by
  refine ⟨?_, by decide, by decide⟩
  intro c
  simp [format_diff]

/-! ## Claim C5: empty test-name intersection -/

/-- Specification-side definition: the set of test names present in every
report (the names of the first report that every other report also has). -/
def specCommonTests (reports : List Dict) : List Str :=
  match reports with
  | [] => []
  | d :: rest =>
    (d.map (fun e => e.1)).filter (fun k => rest.all (fun d2 => (alLookup d2 k).isSome))

/-- Specification-side definition: the weighted sum of a report over a
given set of tests. -/
def specWeightedSum (d : Dict) (common : List Str) : ℚ :=
  (common.map (fun t => alLookupD d t 0 * (get_weight t : ℚ))).sum

/-- Disjoint scenario-5 inputs: report A has tests t and u, report B has
only test v. -/
def c5Files : List (Str × Str) :=
  [(("A.txt").data, ("t time: [1.0 ms 1.0 ms 1.0 ms]\nu time: [1.0 ms 1.0 ms 1.0 ms]").data),
   (("B.txt").data, ("v time: [1.0 ms 2.0 ms 3.0 ms]").data)]

/-- Counterexample to C5 as stated: two reports with an empty test-name
intersection do not make the run fail, and a full comparison table is
printed (17 lines, including baseline rows marked ( base)). -/
theorem empty_intersection_table_still_printed :
    parse_file (("t time: [1.0 ms 1.0 ms 1.0 ms]\nu time: [1.0 ms 1.0 ms 1.0 ms]").data)
      = some [(("t").data, 1 / 1000), (("u").data, 1 / 1000)]
    ∧ parse_file (("v time: [1.0 ms 2.0 ms 3.0 ms]").data) = some [(("v").data, 1 / 500)]
    ∧ specCommonTests
        [[(("t").data, 1 / 1000), (("u").data, 1 / 1000)], [(("v").data, 1 / 500)]] = []
    ∧ (mainRun c5Files).isSome = true
    ∧ ((mainRun c5Files).getD ([], [])).1.length = 17
    ∧ ((mainRun c5Files).getD ([], [])).1.any
        (fun l => containsSub l (("( base)").data)) = true := by
  exact ⟨by decide, by decide, by decide, by decide, by decide, by decide⟩

theorem summaryRowsAux_length (b : Str) (bs : ℚ) :
    ∀ (allocs : List Str) (sums : SDict ℚ),
      ((summaryRowsAux b bs allocs sums).1).length = allocs.length := by
  intro allocs
  induction allocs with
  | nil => intro sums; rfl
  | cons a t ih =>
    intro sums
    simp only [summaryRowsAux, List.length_cons, ih]

/-- C5 (corrected): no intersection check exists: as soon as there is at
least one allocator and at least one test name in the union, the table
(at least 14 lines) is printed, regardless of whether the reports share
any test; on the concrete disjoint pair the run completes and prints the
full table. -/
theorem no_empty_intersection_check :
    (∀ (allocs : List Str) (res : SDict Dict) (tests : List Str),
       allocs ≠ [] → tests ≠ [] → 14 ≤ ((print_results allocs res tests).1).length)
    ∧ (mainRun c5Files).isSome = true
    ∧ 14 ≤ ((mainRun c5Files).getD ([], [])).1.length := by
  refine ⟨?_, by decide, by decide⟩
  intro allocs res tests h1 h2
  unfold print_results
  rw [if_neg (by simp [h1, h2])]
  simp only [List.length_append, List.length_cons, List.length_nil, summaryRowsAux_length]
  have hpos : 0 < allocs.length := List.length_pos.mpr h1
  omega

/-- Witness for C5 (corrected): the length bound applied to a concrete
one-allocator, one-test call. -/
theorem no_empty_intersection_check_witness :
    14 ≤ ((print_results [(("a").data : Str)] [] [(("x").data : Str)]).1).length :=
  no_empty_intersection_check.1 [(("a").data : Str)] [] [(("x").data : Str)]
    (by decide) (by decide)

/-! ## Claim C2: which tests the aggregate sums range over -/

theorem alLookupD_alAdd (d : SDict ℚ) (k : Str) (x : ℚ) (k' : Str) :
    alLookupD (alAdd d k x) k' 0 = alLookupD d k' 0 + (if k' = k then x else 0) := by
  unfold alAdd alLookupD
  rw [alLookup_alInsert]
  by_cases h : k' = k
  · subst h
    simp
  · simp [h]

theorem alLookupD_alTouch (d : SDict ℚ) (k : Str) (k' : Str) :
    alLookupD (alTouch d k) k' 0 = alLookupD d k' 0 := by
  unfold alTouch
  cases h : alLookup d k with
  | some v => rfl
  | none =>
    unfold alLookupD
    rw [alLookup_alInsert]
    by_cases h' : k' = k
    · subst h'
      rw [h]
      simp
    · simp [h']

/-- The weighted contribution of one test to one report's sum with an
explicit weight: duration times weight when the report has the test, 0
otherwise. -/
def cellContribW (all_results : SDict Dict) (w : ℕ) (a t : Str) : ℚ :=
  match alLookup (alLookupD all_results a []) t with
  | some r => r * (w : ℚ)
  | none => 0

/-- The weighted contribution of one test to one report's sum, at the
weight the script uses for that test. -/
def cellContrib (all_results : SDict Dict) (a t : Str) : ℚ :=
  cellContribW all_results (get_weight t) a t

theorem cellsAux_sums (all_results : SDict Dict) (b : Str) (bw : ℚ) (w : ℕ)
    (test : Str) (a : Str) :
    ∀ (allocs : List Str) (row : Str) (sums : SDict ℚ), allocs.Nodup →
      alLookupD (cellsAux all_results b bw w test allocs row sums).2 a 0
        = alLookupD sums a 0
          + (if a ∈ allocs then cellContribW all_results w a test else 0) := by
  intro allocs
  induction allocs with
  | nil =>
    intro row sums _
    simp [cellsAux]
  | cons alloc t ih =>
    intro row sums hnd
    rcases List.nodup_cons.mp hnd with ⟨hna, hndt⟩
    cases hl : alLookup (alLookupD all_results alloc []) test with
    | some r =>
      simp only [cellsAux, hl]
      rw [ih _ _ hndt, alLookupD_alAdd]
      by_cases ha : a = alloc
      · subst ha
        have hnotin : a ∉ t := hna
        simp [hnotin, cellContribW, hl]
      · simp only [if_neg ha, add_zero, List.mem_cons]
        by_cases hat : a ∈ t
        · simp [hat, ha]
        · simp [hat, ha]
    | none =>
      simp only [cellsAux, hl]
      rw [ih _ _ hndt]
      by_cases ha : a = alloc
      · subst ha
        have hnotin : a ∉ t := hna
        simp [hnotin, cellContribW, hl]
      · simp only [List.mem_cons]
        by_cases hat : a ∈ t
        · simp [hat, ha]
        · simp [hat, ha]

theorem rowsAux_sums (allocators : List Str) (all_results : SDict Dict) (b : Str)
    (mlen : ℕ) (a : Str) (hnd : allocators.Nodup) :
    ∀ (tests : List Str) (sums : SDict ℚ) (cnt : ℕ),
      alLookupD (rowsAux allocators all_results b mlen tests sums cnt).2.1 a 0
        = alLookupD sums a 0
          + ((tests.filter (fun t => (alLookup (alLookupD all_results b []) t).isSome)).map
              (fun t => if a ∈ allocators then cellContrib all_results a t else 0)).sum := by
  intro tests
  induction tests with
  | nil => intro sums cnt; simp [rowsAux]
  | cons test rest ih =>
    intro sums cnt
    cases hb : alLookup (alLookupD all_results b []) test with
    | none =>
      simp only [rowsAux, hb]
      rw [ih]
      simp [List.filter_cons, hb]
    | some bt =>
      simp only [rowsAux, hb]
      rw [ih, cellsAux_sums _ _ _ _ _ _ _ _ _ hnd]
      simp only [List.filter_cons, hb, Option.isSome_some, if_true, List.map_cons,
        List.sum_cons]
      unfold cellContrib
      rw [add_assoc]

theorem sumCellsAux_sums (b : Str) (bs : ℚ) (a : Str) :
    ∀ (allocs : List Str) (row : Str) (sums : SDict ℚ),
      alLookupD (sumCellsAux b bs allocs row sums).2 a 0 = alLookupD sums a 0 := by
  intro allocs
  induction allocs with
  | nil => intro row sums; rfl
  | cons x t ih =>
    intro row sums
    simp only [sumCellsAux]
    rw [ih, alLookupD_alTouch]

theorem summaryRowsAux_sums (b : Str) (bs : ℚ) (a : Str) :
    ∀ (allocs : List Str) (sums : SDict ℚ),
      alLookupD (summaryRowsAux b bs allocs sums).2 a 0 = alLookupD sums a 0 := by
  intro allocs
  induction allocs with
  | nil => intro sums; rfl
  | cons x t ih =>
    intro sums
    simp only [summaryRowsAux]
    rw [ih, alLookupD_alTouch]

theorem print_results_sums (allocs : List Str) (res : SDict Dict) (tests : List Str)
    (a : Str) (hnd : allocs.Nodup) (ha : a ∈ allocs) :
    alLookupD (print_results allocs res tests).2 a 0
      = ((tests.filter (fun t =>
            (alLookup (alLookupD res (allocs.headD []) []) t).isSome)).map
          (fun t => cellContrib res a t)).sum := by
  by_cases hguard : allocs = [] ∨ tests = []
  · rcases hguard with h | h
    · subst h
      exact absurd ha (List.not_mem_nil a)
    · subst h
      unfold print_results
      rw [if_pos (Or.inr rfl)]
      simp [alLookupD, alLookup]
  · push_neg at hguard
    unfold print_results
    rw [if_neg (by simp [hguard.1, hguard.2])]
    simp only [summaryRowsAux_sums, sumCellsAux_sums]
    rw [rowsAux_sums _ _ _ _ _ hnd]
    simp only [alLookupD, alLookup, Option.getD_none, zero_add]
    congr 1
    apply List.map_congr_left
    intro t _
    simp [ha]

/-- Baseline report content for claim C2: tests t and u. -/
def c2BaselineContent : Str :=
  ("t time: [1.0 ms 1.0 ms 1.0 ms]\nu time: [1.0 ms 1.0 ms 1.0 ms]").data

/-- Candidate report content for claim C2: test t only. -/
def c2CandidateContent : Str := ("t time: [1.0 ms 1.0 ms 1.0 ms]").data

/-- The two-file run of claim C2. -/
def c2Files : List (Str × Str) :=
  [(("default").data, c2BaselineContent), (("jemalloc").data, c2CandidateContent)]

/-- Counterexample to C2 as stated: the common test set is the singleton t,
but the baseline's weighted sum is 1/5 (it includes the baseline-only test
u), not the 1/10 that a sum over the intersection would give. -/
theorem weighted_sums_not_over_intersection :
    parse_file c2BaselineContent
      = some [(("t").data, 1 / 1000), (("u").data, 1 / 1000)]
    ∧ parse_file c2CandidateContent = some [(("t").data, 1 / 1000)]
    ∧ specCommonTests [[(("t").data, 1 / 1000), (("u").data, 1 / 1000)],
        [(("t").data, 1 / 1000)]] = [("t").data]
    ∧ alLookupD ((mainRun c2Files).getD ([], [])).2 (("default").data) 0 = 1 / 5
    ∧ specWeightedSum [(("t").data, 1 / 1000), (("u").data, 1 / 1000)] [("t").data] = 1 / 10
    ∧ ¬ ((1 : ℚ) / 5 = 1 / 10) := by
  exact ⟨by decide, by decide, by decide, by decide, by decide, by decide⟩

/-- Allocator list of the witness instance for C2. -/
def c2WitAllocs : List Str := [("a").data]

/-- Results dict of the witness instance for C2. -/
def c2WitRes : SDict Dict := [(("a").data, [(("x").data, (1 : ℚ))])]

/-- Test list of the witness instance for C2. -/
def c2WitTests : List Str := [("x").data]

/-- C2 (corrected): a report's weighted sum ranges over the tests of the
iterated list that are present in the baseline report (the head
allocator), each contributing duration times weight when that report also
has the test and 0 otherwise - not over the intersection of all reports'
test sets; on the concrete run the baseline and candidate sums are 1/5 and
1/10. -/
theorem weighted_sums_range_over_baseline_tests :
    (∀ (allocs : List Str) (res : SDict Dict) (tests : List Str) (a : Str),
       allocs.Nodup → a ∈ allocs →
       alLookupD (print_results allocs res tests).2 a 0
         = ((tests.filter (fun t =>
               (alLookup (alLookupD res (allocs.headD []) []) t).isSome)).map
             (fun t => cellContrib res a t)).sum)
    ∧ alLookupD ((mainRun c2Files).getD ([], [])).2 (("default").data) 0 = 1 / 5
    ∧ alLookupD ((mainRun c2Files).getD ([], [])).2 (("jemalloc").data) 0 = 1 / 10 := by
  refine ⟨?_, by decide, by decide⟩
  intro allocs res tests a hnd ha
  exact print_results_sums allocs res tests a hnd ha

/-- Witness for C2 (corrected): the characterization applied to a concrete
one-allocator instance. -/
theorem weighted_sums_range_over_baseline_tests_witness :
    alLookupD (print_results c2WitAllocs c2WitRes c2WitTests).2 (("a").data) 0
      = ((c2WitTests.filter (fun t =>
            (alLookup (alLookupD c2WitRes (c2WitAllocs.headD []) []) t).isSome)).map
          (fun t => cellContrib c2WitRes (("a").data) t)).sum :=
  weighted_sums_range_over_baseline_tests.1 c2WitAllocs c2WitRes c2WitTests (("a").data)
    (by decide) (by decide)
